import Mathlib

/-!
Verification of the YOLOs-CPP bounded multi-stage concurrent pipeline
(`src/camera_inference.cpp`) and of the benchmark tool
(`benchmark/yolo_performance_analyzer.cpp`).

The pipeline's three worker loops (producer / consumer / display) are
embedded as pure step functions over an explicit pipeline state; thread
interleaving is an explicit schedule (a list of thread identifiers), and
each list element runs one loop iteration of that thread.  Blocking queue
operations are embedded as outcomes: a `put` on a full unfinished queue or
a `get` on an empty unfinished queue yields `blocked`, and a blocked thread
simply retries at its next scheduled step.

`BoundedThreadSafeQueue.hpp` itself is not among the repository files
available here (only its callers are), so the queue operations are
modelled from the specification's contract for `put`/`get`/`markFinished`.
Everything else is translated from the two C++ source files.
-/

namespace YOLOsCPP

/-- Modelled from the spec: the state of `BoundedThreadSafeQueue<T>`
(the header itself is not in the available sources) — a fixed capacity `K`,
a FIFO buffer with `0 ≤ size ≤ K`, and a monotonic `finished` flag. -/
structure BoundedQueue (α : Type) where
  capacity : Nat
  buffer : List α
  finished : Bool
deriving DecidableEq, Repr

/-- Modelled from the spec: the outcome of `put` — `accepted` (returns true
after buffering), `blocked` (caller is blocked while `size == K` and
`finished == false`), or `rejected` (returns false, item not enqueued,
because `finished` is true). -/
inductive PutResult (α : Type) where
  | accepted (q : BoundedQueue α)
  | blocked
  | rejected
deriving DecidableEq, Repr

/-- Modelled from the spec: the outcome of `get` — the oldest buffered
item (removed), `closed` (only when `size == 0` and `finished == true`),
or `blocked` (empty but not finished). -/
inductive GetResult (α : Type) where
  | item (x : α) (q : BoundedQueue α)
  | closed
  | blocked
deriving DecidableEq, Repr

/-- Modelled from the spec: `put(item)` blocks while `size == K` and
`finished == false`; returns false (not enqueued) once `finished` is true;
otherwise buffers the item at the tail and returns true. -/
def BoundedQueue.put (q : BoundedQueue α) (x : α) : PutResult α :=
  if q.finished then .rejected
  else if q.buffer.length < q.capacity then
    .accepted ⟨q.capacity, q.buffer ++ [x], q.finished⟩
  else .blocked

/-- Modelled from the spec: `get()` blocks while `size == 0` and
`finished == false`; returns the oldest buffered item (removing it) if
`size > 0` regardless of `finished`; returns "closed" only when
`size == 0` and `finished == true`. -/
def BoundedQueue.get (q : BoundedQueue α) : GetResult α :=
  match q.buffer with
  | [] => if q.finished then .closed else .blocked
  | x :: rest => .item x ⟨q.capacity, rest, q.finished⟩

/-- Modelled from the spec: `markFinished()` sets `finished` (idempotent)
and does not discard buffered items. -/
def BoundedQueue.markFinished (q : BoundedQueue α) : BoundedQueue α :=
  ⟨q.capacity, q.buffer, true⟩

/-- The source calls `markFinished` under the name `set_finished`. -/
def BoundedQueue.set_finished (q : BoundedQueue α) : BoundedQueue α :=
  q.markFinished

/-- The source calls `put` under the name `enqueue`. -/
def BoundedQueue.enqueue (q : BoundedQueue α) (x : α) : PutResult α :=
  q.put x

/-- The source calls `get` under the name `dequeue`. -/
def BoundedQueue.dequeue (q : BoundedQueue α) : GetResult α :=
  q.get

/-- Iterate `get`, collecting up to `n` successfully retrieved items and
the queue state reached; stops early on `closed` or `blocked`. -/
def getsN : BoundedQueue α → Nat → List α × BoundedQueue α
  | q, 0 => ([], q)
  | q, n + 1 =>
    match q.get with
    | .item x q' => let r := getsN q' n; (x :: r.1, r.2)
    | _ => ([], q)

/-- Iterate `put` over a list of items; `some` of the final queue when every
put was accepted, `none` as soon as one is blocked or rejected. -/
def putAll : BoundedQueue α → List α → Option (BoundedQueue α)
  | q, [] => some q
  | q, x :: xs =>
    match q.put x with
    | .accepted q' => putAll q' xs
    | _ => none

/-! ## The pipeline of `src/camera_inference.cpp`

The three worker lambdas of `main` are embedded as step functions over an
explicit state.  `F` is the frame type (`cv::Mat`), `D` the detection
payload (`std::vector<Detection>`), `E` the type of exceptions the
external `detector.detect` capability may raise.  The fields `accepted`,
`consumed`, `emitted`, `presented` and `recordedDrops` are ghost history
variables recording, respectively: frames accepted into `frameQueue`,
frames dequeued from `frameQueue` by the consumer, pairs accepted into
`processedQueue`, frames shown by the display loop, and frames the program
discarded with a recorded reason — the source contains no code that logs a
dropped frame, so no transition extends `recordedDrops`. -/

/-- Program counter of the producer lambda (lines 172-180): at the loop
head, holding a frame read by `cap.read` and waiting inside
`frameQueue.enqueue`, or exited (after `frameQueue.set_finished()`). -/
inductive ProdPc (F : Type) where
  | run : ProdPc F
  | holding : F → ProdPc F
  | done : ProdPc F
deriving DecidableEq, Repr

/-- Program counter of the consumer lambda (lines 183-195): at the loop
head, holding a detected pair and waiting inside
`processedQueue.enqueue`, or exited (after `processedQueue.set_finished()`). -/
inductive ConsPc (F D : Type) where
  | atHead : ConsPc F D
  | holding : F → D → ConsPc F D
  | done : ConsPc F D
deriving DecidableEq, Repr

/-- Program counter of the display loop (lines 217-234). -/
inductive DispPc where
  | atHead : DispPc
  | done : DispPc
deriving DecidableEq, Repr

/-- `const size_t max_queue_size = 2; // Double buffering` (line 166). -/
def max_queue_size : Nat := 2

/-- The shared state of `main` (lines 165-234): the two bounded queues,
the atomic `stopFlag`, the remaining camera frames (`cap.read` yields
them in order, then end-of-stream), the pending `waitKey` results (one
Bool per displayed frame; exhausted list means no quit key), the three
thread program counters, the ghost histories, and `crashed` — `some e`
once an exception `e` has propagated out of a worker lambda
(`std::terminate`, killing the whole process). -/
structure PipeState (F D E : Type) where
  stopFlag : Bool
  frameQueue : BoundedQueue F
  processedQueue : BoundedQueue (F × D)
  source : List F
  quits : List Bool
  prod : ProdPc F
  cons : ConsPc F D
  disp : DispPc
  accepted : List F
  consumed : List F
  emitted : List (F × D)
  presented : List F
  recordedDrops : List F
  crashed : Option E
deriving DecidableEq, Repr

/-- One iteration of the producer lambda:
`while (!stopFlag.load() && cap.read(frame)) { if (!frameQueue.enqueue(frame)) break; }
frameQueue.set_finished();`.  Reading a frame and attempting the enqueue
are separate steps because the thread can block inside `enqueue` while
holding the frame it read. -/
def prodStep (s : PipeState F D E) : PipeState F D E :=
  match s.prod with
  | .done => s
  | .run =>
    if s.stopFlag then
      { s with prod := .done, frameQueue := s.frameQueue.set_finished }
    else
      match s.source with
      | [] => { s with prod := .done, frameQueue := s.frameQueue.set_finished }
      | f :: rest => { s with source := rest, prod := .holding f }
  | .holding f =>
    match s.frameQueue.enqueue f with
    | .accepted q' =>
      { s with frameQueue := q', accepted := s.accepted ++ [f], prod := .run }
    | .blocked => s
    | .rejected =>
      { s with prod := .done, frameQueue := s.frameQueue.set_finished }

/-- One iteration of the consumer lambda:
`while (!stopFlag.load() && frameQueue.dequeue(frame)) {
  std::vector<Detection> detections = detector.detect(frame);
  if (!processedQueue.enqueue(std::make_pair(frame, detections))) break; }
processedQueue.set_finished();`.  `detector.detect` is the external
capability; the lambda contains no try/catch, so an exception it raises
propagates out of the thread function and the process dies
(`crashed := some e`; `set_finished` is never reached on that path). -/
def consStep (detect : F → Except E D) (s : PipeState F D E) : PipeState F D E :=
  match s.cons with
  | .done => s
  | .atHead =>
    if s.stopFlag then
      { s with cons := .done, processedQueue := s.processedQueue.set_finished }
    else
      match s.frameQueue.dequeue with
      | .blocked => s
      | .closed =>
        { s with cons := .done, processedQueue := s.processedQueue.set_finished }
      | .item f qA' =>
        match detect f with
        | .error e =>
          { s with frameQueue := qA', consumed := s.consumed ++ [f], crashed := some e }
        | .ok d =>
          { s with frameQueue := qA', consumed := s.consumed ++ [f], cons := .holding f d }
  | .holding f d =>
    match s.processedQueue.enqueue (f, d) with
    | .accepted q' =>
      { s with processedQueue := q', emitted := s.emitted ++ [(f, d)], cons := .atHead }
    | .blocked => s
    | .rejected =>
      { s with cons := .done, processedQueue := s.processedQueue.set_finished }

/-- One iteration of the display loop:
`while (!stopFlag.load() && processedQueue.dequeue(item)) { ... imshow ...
  if (cv::waitKey(1) == 'q') { stopFlag.store(true);
    frameQueue.set_finished(); processedQueue.set_finished(); break; } }`.
On its normal exits (stopFlag observed true, or `dequeue` returns closed)
the loop marks nothing. -/
def dispStep (s : PipeState F D E) : PipeState F D E :=
  match s.disp with
  | .done => s
  | .atHead =>
    if s.stopFlag then { s with disp := .done }
    else
      match s.processedQueue.dequeue with
      | .blocked => s
      | .closed => { s with disp := .done }
      | .item fd qB' =>
        if s.quits.headD false then
          { s with presented := s.presented ++ [fd.1], quits := s.quits.tail,
                   stopFlag := true,
                   frameQueue := s.frameQueue.set_finished,
                   processedQueue := qB'.set_finished,
                   disp := .done }
        else
          { s with presented := s.presented ++ [fd.1], quits := s.quits.tail,
                   processedQueue := qB' }

/-- Thread identifiers: the producer thread, the consumer thread and the
display thread of `main`. -/
inductive Tid where
  | prod : Tid
  | cons : Tid
  | disp : Tid
deriving DecidableEq, Repr

/-- One scheduled step: run one loop iteration of the chosen thread.
Once an exception has escaped a worker lambda the process is dead and
nothing further happens. -/
def step (detect : F → Except E D) (s : PipeState F D E) (t : Tid) : PipeState F D E :=
  if s.crashed.isSome then s
  else
    match t with
    | .prod => prodStep s
    | .cons => consStep detect s
    | .disp => dispStep s

/-- Run the pipeline under an explicit interleaving schedule. -/
def run (detect : F → Except E D) (s : PipeState F D E) (sched : List Tid) :
    PipeState F D E :=
  sched.foldl (step detect) s

/-- The pipeline state as `main` (lines 165-169) creates it: both queues
constructed with capacity `max_queue_size`, `stopFlag` initialised false,
all three loops at their heads, empty histories, no crash. -/
def initState (source : List F) (quits : List Bool) : PipeState F D E :=
  { stopFlag := false
    frameQueue := ⟨max_queue_size, [], false⟩
    processedQueue := ⟨max_queue_size, [], false⟩
    source := source
    quits := quits
    prod := .run
    cons := .atHead
    disp := .atHead
    accepted := []
    consumed := []
    emitted := []
    presented := []
    recordedDrops := []
    crashed := none }

/-- Result of `main` as observed by its caller: the exit code, whether any
worker thread was spawned, and (when the pipeline ran) the final state. -/
structure MainResult (F D E : Type) where
  exitCode : Int
  threadsSpawned : Bool
  final : Option (PipeState F D E)
deriving DecidableEq, Repr

/-- Embedding of `main` (lines 151-246): `cap.open` is attempted first;
if `!cap.isOpened()` the program prints an error and returns -1 before the
queues are constructed or any thread is spawned (lines 154-158).
Otherwise the queues and threads are created and the pipeline runs to the
given schedule; `main` then joins all threads and returns 0. -/
def cameraMain (capOpened : Bool) (source : List F) (detect : F → Except E D)
    (quits : List Bool) (sched : List Tid) : MainResult F D E :=
  if capOpened then
    { exitCode := 0, threadsSpawned := true,
      final := some (run detect (initState source quits) sched) }
  else
    { exitCode := -1, threadsSpawned := false, final := none }

/-- The frame the consumer currently holds between its dequeue from
`frameQueue` and its enqueue into `processedQueue`, as a list. -/
def consHold : ConsPc F D → List F
  | .holding f _ => [f]
  | _ => []

/-- Invariant of every run with no quit request and no detection error
(the hypotheses of the no-loss/FIFO claims): the stop flag is still false,
the pending `waitKey` results are all non-quit, `processedQueue` can only
have been finished by the consumer's own exit, the frames dequeued from
`frameQueue` plus those still buffered are exactly those accepted (FIFO),
the frames displayed plus those buffered in `processedQueue` are exactly
those emitted (FIFO), the frames emitted plus the one in the consumer's
hands plus those buffered in `frameQueue` are exactly those accepted, and
no worker has crashed. -/
def Inv7 (s : PipeState F D E) : Prop :=
  s.stopFlag = false ∧
  (∀ b ∈ s.quits, b = false) ∧
  (s.processedQueue.finished = true → s.cons = .done) ∧
  s.consumed ++ s.frameQueue.buffer = s.accepted ∧
  s.presented ++ s.processedQueue.buffer.map Prod.fst = s.emitted.map Prod.fst ∧
  s.emitted.map Prod.fst ++ consHold s.cons ++ s.frameQueue.buffer = s.accepted ∧
  s.crashed = none

/-- A concrete three-step run in which the detector raises on the first
frame: producer reads frame 7 and enqueues it, consumer dequeues it and
calls the failing `detect`. -/
def c2run : PipeState Nat Unit Unit :=
  run (fun _ => Except.error ()) (initState [7] [])
    [Tid.prod, Tid.prod, Tid.cons]

/-- A concrete run in which the user presses 'q' while frame 20 is still
buffered in `frameQueue`: the producer accepts frames 10 and 20, the
consumer processes frame 10 into `processedQueue`, the display shows it
and observes the quit key, then consumer and producer observe the stop
flag and exit. -/
def c3run : PipeState Nat Unit Unit :=
  run (fun _ => Except.ok ()) (initState [10, 20, 30] [true])
    [Tid.prod, Tid.prod, Tid.prod, Tid.prod, Tid.cons, Tid.cons,
     Tid.disp, Tid.cons, Tid.prod]

/-- A concrete mid-run state: the display loop is at its head, frame 3 is
buffered in `frameQueue`, the processed frame 5 is buffered in
`processedQueue`, and the next `waitKey` will report 'q'. -/
def c1state : PipeState Nat Unit Unit :=
  { stopFlag := false
    frameQueue := ⟨2, [3], false⟩
    processedQueue := ⟨2, [(5, ())], false⟩
    source := []
    quits := [true]
    prod := .run
    cons := .atHead
    disp := .atHead
    accepted := [3, 5]
    consumed := [5]
    emitted := [(5, ())]
    presented := []
    recordedDrops := []
    crashed := none }

/-- A concrete mid-run state in which the consumer is about to dequeue
frame 7 from `frameQueue`. -/
def c2state : PipeState Nat Unit Unit :=
  { stopFlag := false
    frameQueue := ⟨2, [7], false⟩
    processedQueue := ⟨2, [], false⟩
    source := []
    quits := []
    prod := .run
    cons := .atHead
    disp := .atHead
    accepted := [7]
    consumed := []
    emitted := []
    presented := []
    recordedDrops := []
    crashed := none }

/-- The schedule of a complete quiet run over the two-frame source
`[1, 2]`: the producer accepts both frames and reaches end-of-stream, the
consumer processes both and observes "closed", the display shows both and
observes "closed". -/
def c7sched : List Tid :=
  [.prod, .prod, .prod, .prod, .prod, .cons, .cons, .cons, .cons, .cons,
   .disp, .disp, .disp]

/-! ## The benchmark tool `benchmark/yolo_performance_analyzer.cpp`

C++ `double` values are embedded as rationals; the two undefined
operations the statistics code can perform — dividing by a zero
`values.size()` (IEEE 0.0/0.0, NaN) and dereferencing the iterators
`std::minmax_element` returns on an empty range (UB) — are embedded as
`Option`, `none` marking the undefined outcome. -/

/-- Division as the statistics code uses it on doubles; `none` when the
divisor is zero (0.0/0.0 is NaN, not a usable statistic). -/
def fdiv (a b : ℚ) : Option ℚ :=
  if b = 0 then none else some (a / b)

/-- Embeds the `calc_avg` lambda (lines 362-364, likewise 465-467):
`std::accumulate(values.begin(), values.end(), 0.0) / values.size()` —
the division by `values.size()` is unguarded. -/
def calc_avg (values : List ℚ) : Option ℚ :=
  fdiv values.sum values.length

/-- Embeds the `calc_min_max` lambda (lines 366-369, likewise 469-472):
`std::minmax_element` over the range followed immediately by
`*minmax.first` and `*minmax.second`; on an empty range both iterators are
the end iterator and the dereference is undefined (`none`). -/
def calc_min_max : List ℚ → Option (ℚ × ℚ)
  | [] => none
  | x :: xs => some (xs.foldl (fun p v => (min p.1 v, max p.2 v)) (x, x))

/-- The measurement loop of `benchmark_video_comprehensive`
(lines 325-351): one `frame_times` entry and one `latency_times` entry are
pushed per frame read from the video, and `frame_count` counts them. -/
def videoLoopTimes (frames : List F) (frameTime latency : F → ℚ) :
    List ℚ × List ℚ × Nat :=
  (frames.map frameTime, frames.map latency, frames.length)

/-- The measurement loop of `benchmark_camera_comprehensive`
(lines 423-454): each read attempt before the deadline either fails
(`sleep(1ms); continue` — nothing recorded) or yields a frame whose times
are pushed. -/
def cameraLoopTimes (attempts : List (Option F)) (frameTime latency : F → ℚ) :
    List ℚ × List ℚ × Nat :=
  let frames := attempts.filterMap id
  (frames.map frameTime, frames.map latency, frames.length)

/-- The statistics block of `benchmark_video_comprehensive`
(lines 361-379): `total_avg_ms = calc_avg(frame_times)`,
`latency_avg_ms = calc_avg(latency_times)` and
`(latency_min_ms, latency_max_ms) = calc_min_max(latency_times)` are
computed with no emptiness check; the result is undefined (`none`) as soon
as one of the unguarded operations is. -/
def videoStats (frame_times latency_times : List ℚ) :
    Option (ℚ × ℚ × ℚ × ℚ) :=
  match calc_avg frame_times, calc_avg latency_times,
      calc_min_max latency_times with
  | some a, some b, some mm => some (a, b, mm.1, mm.2)
  | _, _, _ => none

/-- The statistics block of `benchmark_camera_comprehensive`
(lines 464-482), textually identical to the video one. -/
def cameraStats (frame_times latency_times : List ℚ) :
    Option (ℚ × ℚ × ℚ × ℚ) :=
  videoStats frame_times latency_times

/-- `BenchmarkConfig` (lines 34-43). -/
structure BenchmarkConfig where
  model_type : String
  task_type : String
  model_path : String
  labels_path : String
  use_gpu : Bool
  thread_count : Int
  quantized : Bool
  precision : String
deriving DecidableEq, Repr

/-- Embeds `std::stoi` as the `--threads=` option uses it: `none` models
the exception thrown on non-numeric input. -/
def stoi (s : String) : Option Int :=
  s.toInt?

/-- The options loop of `parseConfig` (lines 541-553), folding over
`argv[7..argc-1]`. -/
def parseOptions : BenchmarkConfig → List String → Option BenchmarkConfig
  | config, [] => some config
  | config, arg :: rest =>
    if arg = "--gpu" ∨ arg = "gpu" then
      parseOptions { config with use_gpu := true } rest
    else if arg = "--cpu" ∨ arg = "cpu" then
      parseOptions { config with use_gpu := false } rest
    else if arg.take 10 = "--threads=" then
      match stoi (arg.drop 10) with
      | some n => parseOptions { config with thread_count := n } rest
      | none => none
    else if arg = "--quantized" then
      parseOptions { config with quantized := true, precision := "int8" } rest
    else
      parseOptions config rest

/-- Embeds `parseConfig` (lines 524-556).  `argv` is the list of the
`argc` program arguments; C additionally guarantees `argv[argc]` is a null
pointer, which is not a string and hence not an element of this list.  The
function throws (`none`) when `argc < 6`; otherwise it fills the config
from `argv[2..5]` and folds the options over `argv[7..]`.  `none` also
models the exception `std::stoi` raises inside the options loop. -/
def parseConfig (argv : List String) : Option BenchmarkConfig :=
  if argv.length < 6 then none
  else
    parseOptions
      { model_type := argv.getD 2 ""
        task_type := argv.getD 3 ""
        model_path := argv.getD 4 ""
        labels_path := argv.getD 5 ""
        use_gpu := false
        thread_count := 1
        quantized := false
        precision := "fp32" }
      (argv.drop 7)

/-- Outcome of `main`'s single-benchmark argument handling: a thrown
exception (`err`, exit code 1), undefined behaviour (`ub`), or a parsed
config together with the input path. -/
inductive SingleParse where
  | err : SingleParse
  | ub : SingleParse
  | ok (config : BenchmarkConfig) (input_path : String) : SingleParse
deriving DecidableEq, Repr

/-- Embeds `main`'s single-benchmark path (lines 658-660):
`BenchmarkConfig config = parseConfig(argc, argv);
std::string input_path = argv[6];` — the read of `argv[6]` is
unconditional, so when `argc == 6` it reads `argv[argc]`, the null
pointer, and constructing a `std::string` from a null pointer is undefined
behaviour (`ub`). -/
def mainSingleParse (argv : List String) : SingleParse :=
  match parseConfig argv with
  | none => .err
  | some config =>
    match argv.get? 6 with
    | none => .ub
    | some input_path => .ok config input_path

/-- A six-argument invocation (`argc == 6`): mode, model type, task type,
model path, labels path — and no input path. -/
def boundaryArgv : List String :=
  ["./yolo_performance_analyzer", "image", "yolo11", "detection",
   "models/yolo11n.onnx", "models/coco.names"]

/-! ## Helper lemmas: the queue operations -/

theorem getsN_drains (c : Nat) (l : List α) :
    getsN (⟨c, l, true⟩ : BoundedQueue α) l.length = (l, ⟨c, [], true⟩) := by
  induction l with
  | nil => simp [getsN]
  | cons x xs ih =>
    simp [getsN, BoundedQueue.get, ih]

theorem putAll_fills (c : Nat) (xs : List α) (buf : List α)
    (h : buf.length + xs.length ≤ c) :
    putAll (⟨c, buf, false⟩ : BoundedQueue α) xs = some ⟨c, buf ++ xs, false⟩ := by
  induction xs generalizing buf with
  | nil => simp [putAll]
  | cons y ys ih =>
    have h' : buf.length + (ys.length + 1) ≤ c := by
      simpa [List.length_cons] using h
    have hlt : buf.length < c := by omega
    have step : (⟨c, buf, false⟩ : BoundedQueue α).put y =
        .accepted ⟨c, buf ++ [y], false⟩ := by
      simp [BoundedQueue.put, hlt]
    have hlen : (buf ++ [y]).length + ys.length ≤ c := by
      simp only [List.length_append, List.length_cons, List.length_nil]
      omega
    simp [putAll, step, ih (buf ++ [y]) hlen]

theorem put_accepted_inv {q q' : BoundedQueue α} {x : α}
    (h : q.put x = .accepted q') :
    q.finished = false ∧ q.buffer.length < q.capacity ∧
      q' = ⟨q.capacity, q.buffer ++ [x], false⟩ := by
  unfold BoundedQueue.put at h
  split at h
  · exact absurd h (by simp)
  · split at h
    · rename_i hfin hlen
      simp only [Bool.not_eq_true] at hfin
      refine ⟨hfin, hlen, ?_⟩
      cases h
      simp [hfin]
    · exact absurd h (by simp)

theorem put_rejected_inv {q : BoundedQueue α} {x : α}
    (h : q.put x = .rejected) : q.finished = true := by
  unfold BoundedQueue.put at h
  split at h
  · assumption
  · split at h <;> simp_all

theorem put_finished_rejected {q : BoundedQueue α} (x : α)
    (h : q.finished = true) : q.put x = .rejected := by
  simp [BoundedQueue.put, h]

theorem get_item_inv {q q' : BoundedQueue α} {x : α}
    (h : q.get = .item x q') :
    q.buffer = x :: q'.buffer ∧
      q' = ⟨q.capacity, q'.buffer, q.finished⟩ := by
  unfold BoundedQueue.get at h
  split at h
  · split at h <;> simp_all
  · rename_i y rest hbuf
    cases h
    exact ⟨hbuf, rfl⟩

theorem get_closed_iff (q : BoundedQueue α) :
    q.get = .closed ↔ (q.buffer = [] ∧ q.finished = true) := by
  unfold BoundedQueue.get
  constructor
  · intro h
    split at h
    · split at h <;> simp_all
    · simp_all
  · rintro ⟨h1, h2⟩
    rw [show q = ⟨q.capacity, q.buffer, q.finished⟩ from rfl] at *
    simp_all

theorem get_cons (c : Nat) (x : α) (l : List α) (fin : Bool) :
    (⟨c, x :: l, fin⟩ : BoundedQueue α).get = .item x ⟨c, l, fin⟩ := by
  simp [BoundedQueue.get]

theorem get_item_buffer {q q' : BoundedQueue α} {x : α}
    (h : q.get = .item x q') :
    q.buffer = x :: q'.buffer ∧ q'.finished = q.finished ∧
      q'.capacity = q.capacity := by
  obtain ⟨h1, h2⟩ := get_item_inv h
  refine ⟨h1, ?_, ?_⟩ <;> rw [h2]

/-! ## Helper lemmas: runs and invariants -/

theorem run_cons_eq (detect : F → Except E D) (s : PipeState F D E)
    (t : Tid) (ts : List Tid) :
    run detect s (t :: ts) = run detect (step detect s t) ts :=
  rfl

theorem run_preserved {P : PipeState F D E → Prop} (detect : F → Except E D)
    (hstep : ∀ s t, P s → P (step detect s t)) :
    ∀ (sched : List Tid) (s : PipeState F D E), P s → P (run detect s sched) := by
  intro sched
  induction sched with
  | nil => intro s h; exact h
  | cons t ts ih =>
    intro s h
    rw [run_cons_eq]
    exact ih _ (hstep s t h)

theorem prodFin_step (detect : F → Except E D) (s : PipeState F D E) (t : Tid)
    (h : s.prod = .done → s.frameQueue.finished = true) :
    (step detect s t).prod = .done → (step detect s t).frameQueue.finished = true := by
  obtain ⟨stop, ⟨cA, bA, fA⟩, ⟨cB, bB, fB⟩, src, qs, prodPc, consPc, dispPc,
    acc, con, emi, pre, rdrops, cr⟩ := s
  simp only at h
  cases cr with
  | some e => simpa [step] using h
  | none =>
    simp only [step, Option.isSome_none, Bool.false_eq_true, if_false]
    cases t with
    | prod =>
      cases prodPc with
      | done => simpa [prodStep] using h
      | run =>
        cases stop with
        | true =>
          simp [prodStep, BoundedQueue.set_finished, BoundedQueue.markFinished]
        | false =>
          cases src with
          | nil =>
            simp [prodStep, BoundedQueue.set_finished, BoundedQueue.markFinished]
          | cons f rest => simp [prodStep]
      | holding f =>
        cases fA with
        | true =>
          simp [prodStep, BoundedQueue.enqueue, BoundedQueue.put,
            BoundedQueue.set_finished, BoundedQueue.markFinished]
        | false =>
          by_cases hlen : bA.length < cA
          · simp [prodStep, BoundedQueue.enqueue, BoundedQueue.put, hlen]
          · simp [prodStep, BoundedQueue.enqueue, BoundedQueue.put, hlen]
    | cons =>
      cases consPc with
      | done => simpa [consStep] using h
      | atHead =>
        cases stop with
        | true => simpa [consStep] using h
        | false =>
          cases bA with
          | nil =>
            cases fA with
            | true => simp [consStep, BoundedQueue.dequeue, BoundedQueue.get]
            | false =>
              simpa [consStep, BoundedQueue.dequeue, BoundedQueue.get] using h
          | cons x rest =>
            cases hdx : detect x with
            | error e =>
              simpa [consStep, BoundedQueue.dequeue, BoundedQueue.get, hdx] using h
            | ok d =>
              simpa [consStep, BoundedQueue.dequeue, BoundedQueue.get, hdx] using h
      | holding f d =>
        cases fB with
        | true =>
          simpa [consStep, BoundedQueue.enqueue, BoundedQueue.put] using h
        | false =>
          by_cases hlen : bB.length < cB
          · simpa [consStep, BoundedQueue.enqueue, BoundedQueue.put, hlen] using h
          · simpa [consStep, BoundedQueue.enqueue, BoundedQueue.put, hlen] using h
    | disp =>
      cases dispPc with
      | done => simpa [dispStep] using h
      | atHead =>
        cases stop with
        | true => simpa [dispStep] using h
        | false =>
          cases bB with
          | nil =>
            cases fB <;>
              simpa [dispStep, BoundedQueue.dequeue, BoundedQueue.get] using h
          | cons fd rest =>
            cases qs with
            | nil => simpa [dispStep, BoundedQueue.dequeue, BoundedQueue.get] using h
            | cons b bs =>
              cases b with
              | true =>
                simp [dispStep, BoundedQueue.dequeue, BoundedQueue.get,
                  BoundedQueue.set_finished, BoundedQueue.markFinished]
              | false =>
                simpa [dispStep, BoundedQueue.dequeue, BoundedQueue.get] using h

theorem inv7_step (g : F → D) (s : PipeState F D E) (t : Tid) (h : Inv7 s) :
    Inv7 (step (fun f => Except.ok (g f)) s t) := by
  obtain ⟨stop, ⟨cA, bA, fA⟩, ⟨cB, bB, fB⟩, src, qs, prodPc, consPc, dispPc,
    acc, con, emi, pre, rdrops, cr⟩ := s
  simp only [Inv7] at h ⊢
  obtain ⟨h1, h2, h3, h4, h5, h6, h7⟩ := h
  subst h1 h7
  simp only [step, Option.isSome_none, Bool.false_eq_true, if_false]
  cases t with
  | prod =>
    cases prodPc with
    | done => exact ⟨rfl, h2, h3, h4, h5, h6, rfl⟩
    | run =>
      cases src with
      | nil =>
        simp only [prodStep, Bool.false_eq_true, if_false,
          BoundedQueue.set_finished, BoundedQueue.markFinished]
        exact ⟨trivial, h2, h3, h4, h5, h6, trivial⟩
      | cons f rest =>
        simp only [prodStep, Bool.false_eq_true, if_false]
        exact ⟨trivial, h2, h3, h4, h5, h6, trivial⟩
    | holding f =>
      cases fA with
      | true =>
        simp only [prodStep, BoundedQueue.enqueue, BoundedQueue.put,
          if_true, BoundedQueue.set_finished, BoundedQueue.markFinished]
        exact ⟨trivial, h2, h3, h4, h5, h6, trivial⟩
      | false =>
        by_cases hlen : bA.length < cA
        · simp only [prodStep, BoundedQueue.enqueue, BoundedQueue.put,
            Bool.false_eq_true, if_false, hlen, if_true]
          refine ⟨trivial, h2, h3, ?_, h5, ?_, trivial⟩
          · simpa [← List.append_assoc] using congrArg (· ++ [f]) h4
          · simpa [← List.append_assoc] using congrArg (· ++ [f]) h6
        · simp only [prodStep, BoundedQueue.enqueue, BoundedQueue.put,
            Bool.false_eq_true, if_false, hlen]
          exact ⟨trivial, h2, h3, h4, h5, h6, trivial⟩
  | cons =>
    cases consPc with
    | done => exact ⟨rfl, h2, h3, h4, h5, h6, rfl⟩
    | atHead =>
      cases bA with
      | nil =>
        cases fA with
        | true =>
          simp only [consStep, Bool.false_eq_true, if_false,
            BoundedQueue.dequeue, BoundedQueue.get, if_true,
            BoundedQueue.set_finished, BoundedQueue.markFinished]
          exact ⟨trivial, h2, by simp, h4, h5, by simpa [consHold] using h6, trivial⟩
        | false =>
          simp only [consStep, Bool.false_eq_true, if_false,
            BoundedQueue.dequeue, BoundedQueue.get]
          exact ⟨trivial, h2, h3, h4, h5, h6, trivial⟩
      | cons x rest =>
        cases fB with
        | true => simp at h3
        | false =>
          simp only [consStep, Bool.false_eq_true, if_false,
            BoundedQueue.dequeue, BoundedQueue.get]
          refine ⟨trivial, h2, by simp, ?_, h5, ?_, trivial⟩
          · simpa [List.append_assoc] using h4
          · simpa [consHold, List.append_assoc] using h6
    | holding f d =>
      cases fB with
      | true => simp at h3
      | false =>
        by_cases hlen : bB.length < cB
        · simp only [consStep, BoundedQueue.enqueue, BoundedQueue.put,
            Bool.false_eq_true, if_false, hlen, if_true]
          refine ⟨trivial, h2, by simp, h4, ?_, ?_, trivial⟩
          · simpa [List.append_assoc] using congrArg (· ++ [f]) h5
          · simpa [consHold, List.append_assoc] using h6
        · simp only [consStep, BoundedQueue.enqueue, BoundedQueue.put,
            Bool.false_eq_true, if_false, hlen]
          exact ⟨trivial, h2, by simp, h4, h5, h6, trivial⟩
  | disp =>
    cases dispPc with
    | done => exact ⟨rfl, h2, h3, h4, h5, h6, rfl⟩
    | atHead =>
      cases bB with
      | nil =>
        cases fB with
        | true =>
          simp only [dispStep, Bool.false_eq_true, if_false,
            BoundedQueue.dequeue, BoundedQueue.get, if_true]
          exact ⟨trivial, h2, fun _ => h3 rfl, h4, h5, h6, trivial⟩
        | false =>
          simp only [dispStep, Bool.false_eq_true, if_false,
            BoundedQueue.dequeue, BoundedQueue.get]
          exact ⟨trivial, h2, by simp, h4, h5, h6, trivial⟩
      | cons fd rest =>
        cases qs with
        | nil =>
          simp only [dispStep, Bool.false_eq_true, if_false,
            BoundedQueue.dequeue, BoundedQueue.get, List.headD]
          refine ⟨trivial, by simp, h3, h4, ?_, h6, trivial⟩
          simpa [List.append_assoc] using h5
        | cons b bs =>
          have hb : b = false := h2 b (List.mem_cons_self b bs)
          subst hb
          simp only [dispStep, Bool.false_eq_true, if_false,
            BoundedQueue.dequeue, BoundedQueue.get, List.headD]
          refine ⟨trivial, fun c hc => h2 c (List.mem_cons_of_mem _ hc), h3, h4, ?_, h6, trivial⟩
          simpa [List.append_assoc] using h5

/-! ## The claims -/

/-- C4: `get` returns the oldest buffered item whenever `size > 0`
regardless of `finished`, and returns "closed" exactly when `size == 0`
and `finished == true`; after `markFinished`, a queue holding `B` buffered
items yields exactly `B` more successful gets, reaching the empty finished
queue, after which `get` returns "closed" (and, the state being unchanged
by a closed `get`, does so on every subsequent call); `markFinished` a
second time is a no-op. -/
theorem C4_closed_signal :
    (∀ (α : Type) (q : BoundedQueue α) (x : α) (rest : List α),
        q.buffer = x :: rest → q.get = .item x ⟨q.capacity, rest, q.finished⟩) ∧
    (∀ (α : Type) (q : BoundedQueue α),
        q.get = .closed ↔ (q.buffer = [] ∧ q.finished = true)) ∧
    (∀ (α : Type) (q : BoundedQueue α),
        getsN q.markFinished q.buffer.length = (q.buffer, ⟨q.capacity, [], true⟩) ∧
        (⟨q.capacity, [], true⟩ : BoundedQueue α).get = .closed) ∧
    (∀ (α : Type) (q : BoundedQueue α),
        q.markFinished.markFinished = q.markFinished) := by
  refine ⟨?_, ?_, ?_, ?_⟩
  · intro α q x rest h
    rw [show q = ⟨q.capacity, q.buffer, q.finished⟩ from rfl, h]
    exact get_cons _ _ _ _
  · intro α q
    exact get_closed_iff q
  · intro α q
    refine ⟨?_, by simp [BoundedQueue.get]⟩
    have := getsN_drains q.capacity q.buffer (α := α)
    simpa [BoundedQueue.markFinished] using this
  · intro α q
    simp [BoundedQueue.markFinished]

/-- C5: the buffered size never exceeds the capacity `K`; a `put` on a
full unfinished queue blocks (the state is untouched — no overwrite, no
silent drop); after `K` accepted puts into an empty queue of capacity `K`
with no intervening `get`, a further `put` blocks; a `get` on the full
queue removes the oldest item, after which a `put` is accepted again; once
the queue is marked finished a `put` returns "rejected" instead; and in
this pipeline both queues are created with capacity `K = max_queue_size = 2`. -/
theorem C5_capacity_bound :
    (∀ (α : Type) (q : BoundedQueue α) (x : α) (q' : BoundedQueue α),
        q.put x = .accepted q' →
          q'.capacity = q.capacity ∧ q'.buffer.length ≤ q.capacity) ∧
    (∀ (α : Type) (q : BoundedQueue α) (x : α),
        q.finished = false → q.capacity ≤ q.buffer.length → q.put x = .blocked) ∧
    (∀ (α : Type) (K : Nat) (xs : List α),
        xs.length = K →
          putAll (⟨K, [], false⟩ : BoundedQueue α) xs = some ⟨K, xs, false⟩) ∧
    (∀ (α : Type) (K : Nat) (xs : List α) (y : α),
        xs.length = K → (⟨K, xs, false⟩ : BoundedQueue α).put y = .blocked) ∧
    (∀ (α : Type) (c : Nat) (x y : α) (l : List α),
        l.length + 1 = c →
          (⟨c, x :: l, false⟩ : BoundedQueue α).get = .item x ⟨c, l, false⟩ ∧
          (⟨c, l, false⟩ : BoundedQueue α).put y = .accepted ⟨c, l ++ [y], false⟩) ∧
    (∀ (α : Type) (q : BoundedQueue α) (x : α),
        q.finished = true → q.put x = .rejected) ∧
    max_queue_size = 2 ∧
    (∀ (F D E : Type) (source : List F) (quits : List Bool),
        (initState source quits : PipeState F D E).frameQueue.capacity = 2 ∧
        (initState source quits : PipeState F D E).processedQueue.capacity = 2) := by
  refine ⟨?_, ?_, ?_, ?_, ?_, ?_, rfl, ?_⟩
  · intro α q x q' h
    obtain ⟨-, hlen, rfl⟩ := put_accepted_inv h
    constructor
    · rfl
    · simp only [List.length_append, List.length_cons, List.length_nil]
      omega
  · intro α q x hfin hfull
    simp [BoundedQueue.put, hfin, Nat.not_lt.mpr hfull]
  · intro α K xs h
    simpa using putAll_fills K xs [] (by simp [h])
  · intro α K xs y h
    simp [BoundedQueue.put, h]
  · intro α c x y l h
    refine ⟨get_cons _ _ _ _, ?_⟩
    simp [BoundedQueue.put, show l.length < c by omega]
  · intro α q x h
    exact put_finished_rejected x h
  · intro F D E source quits
    exact ⟨rfl, rfl⟩

/-- C8: when the capture source cannot be opened (`!cap.isOpened()`,
lines 154-158), `main` returns the failure exit code -1 before the queues
are constructed or any worker thread is spawned; the pipeline never
starts. -/
theorem C8_startup_failure (F D E : Type) (source : List F)
    (detect : F → Except E D) (quits : List Bool) (sched : List Tid) :
    cameraMain false source detect quits sched =
      ⟨-1, false, (none : Option (PipeState F D E))⟩ := by
  rfl

/-- C8 witness: a concrete failed-open invocation. -/
theorem C8_startup_failure_witness :
    cameraMain false [0] (fun _ : Nat => Except.ok ()) [] [Tid.prod] =
      ⟨-1, false, (none : Option (PipeState Nat Unit Unit))⟩ :=
  C8_startup_failure Nat Unit Unit [0] (fun _ => Except.ok ()) [] [Tid.prod]

/-- C9: in the benchmark tool, an input yielding zero processed frames (a
video from which no frame is read, or a camera whose read attempts all
fail within the configured duration) leaves `frame_times` and
`latency_times` empty; the statistics block then divides by
`values.size() == 0` in `calc_avg` and dereferences the result of
`minmax_element` on an empty range in `calc_min_max` — both undefined
(`none`) rather than a defined result or a reported error. -/
theorem C9_empty_stats_undefined :
    (∀ frameTime latency : Unit → ℚ,
        videoLoopTimes ([] : List Unit) frameTime latency = ([], [], 0)) ∧
    (∀ (attempts : List (Option Unit)) (frameTime latency : Unit → ℚ),
        (∀ a ∈ attempts, a = none) →
          cameraLoopTimes attempts frameTime latency = ([], [], 0)) ∧
    (([] : List ℚ).length : ℚ) = 0 ∧
    calc_avg ([] : List ℚ) = none ∧
    calc_min_max ([] : List ℚ) = none ∧
    videoStats [] [] = none ∧
    cameraStats [] [] = none := by
  refine ⟨?_, ?_, by simp, rfl, rfl, rfl, rfl⟩
  · intro frameTime latency
    simp [videoLoopTimes]
  · intro attempts frameTime latency h
    have : attempts.filterMap id = [] := by
      induction attempts with
      | nil => simp
      | cons a rest ih =>
        have ha := h a (List.mem_cons_self a rest)
        subst ha
        simpa using ih (fun b hb => h b (List.mem_cons_of_mem _ hb))
    simp [cameraLoopTimes, this]

/-- C10: `parseConfig` rejects exactly the invocations with `argc < 6`,
so it accepts the boundary case `argc == 6`; but `main` then reads
`argv[6]`, which for `argc == 6` is `argv[argc]` — the null pointer — so
the single-benchmark path hits undefined behaviour there, and the
precondition actually required for defined behaviour is `argc ≥ 7`,
stricter than the `argc ≥ 6` check performed. -/
theorem C10_argv6_out_of_range :
    (∀ argv : List String, argv.length < 6 → parseConfig argv = none) ∧
    (parseConfig boundaryArgv).isSome = true ∧
    boundaryArgv.length = 6 ∧
    mainSingleParse boundaryArgv = SingleParse.ub ∧
    (∀ (argv : List String) (c : BenchmarkConfig) (p : String),
        mainSingleParse argv = SingleParse.ok c p → 7 ≤ argv.length) ∧
    (∀ argv : List String, 7 ≤ argv.length →
        mainSingleParse argv ≠ SingleParse.ub) := by
  refine ⟨?_, rfl, rfl, rfl, ?_, ?_⟩
  · intro argv h
    simp [parseConfig, h]
  · intro argv c p h
    unfold mainSingleParse at h
    split at h
    · cases h
    · split at h
      · cases h
      · rename_i input hget
        have := List.get?_eq_some.mp hget
        obtain ⟨hlt, -⟩ := this
        omega
  · intro argv hlen h
    unfold mainSingleParse at h
    split at h
    · cases h
    · split at h
      · rename_i hget
        rw [List.get?_eq_none] at hget
        omega
      · cases h

/-- C1: when the display loop observes the quit key after presenting a
frame, it sets the shared stop flag, calls `set_finished` on both
`frameQueue` and `processedQueue`, and exits its loop; afterwards a `put`
on either queue returns "rejected" rather than blocking, so a producer
blocked inside `put` on either queue is released. -/
theorem C1_quit_marks_both_queues (F D E : Type) (s : PipeState F D E)
    (fd : F × D) (qB' : BoundedQueue (F × D))
    (hdisp : s.disp = DispPc.atHead) (hstop : s.stopFlag = false)
    (hdeq : s.processedQueue.dequeue = .item fd qB')
    (hquit : s.quits.headD false = true) :
    (dispStep s).stopFlag = true ∧
    (dispStep s).frameQueue.finished = true ∧
    (dispStep s).processedQueue.finished = true ∧
    (dispStep s).disp = DispPc.done ∧
    (∀ x : F, (dispStep s).frameQueue.put x = .rejected) ∧
    (∀ y : F × D, (dispStep s).processedQueue.put y = .rejected) := by
  obtain ⟨stop, ⟨cA, bA, fA⟩, ⟨cB, bB, fB⟩, src, qs, prodPc, consPc, dispPc,
    acc, con, emi, pre, rdrops, cr⟩ := s
  simp only at hdisp hstop hdeq hquit
  subst hdisp hstop
  cases bB with
  | nil =>
    unfold BoundedQueue.dequeue BoundedQueue.get at hdeq
    cases fA <;> cases fB <;> simp at hdeq
  | cons hd rest =>
    unfold BoundedQueue.dequeue BoundedQueue.get at hdeq
    simp only [GetResult.item.injEq] at hdeq
    obtain ⟨rfl, rfl⟩ := hdeq
    simp only [dispStep, Bool.false_eq_true, if_false, BoundedQueue.dequeue,
      BoundedQueue.get, hquit, if_true, BoundedQueue.set_finished,
      BoundedQueue.markFinished]
    refine ⟨trivial, trivial, trivial, trivial, ?_, ?_⟩
    · intro x
      exact put_finished_rejected x rfl
    · intro y
      exact put_finished_rejected y rfl

/-- C1 witness: the quit key observed at `c1state` sets the flag, finishes
both queues and exits. -/
theorem C1_quit_marks_both_queues_witness :
    (dispStep c1state).stopFlag = true ∧
    (dispStep c1state).frameQueue.finished = true ∧
    (dispStep c1state).processedQueue.finished = true ∧
    (dispStep c1state).disp = DispPc.done ∧
    (∀ x : Nat, (dispStep c1state).frameQueue.put x = .rejected) ∧
    (∀ y : Nat × Unit, (dispStep c1state).processedQueue.put y = .rejected) :=
  C1_quit_marks_both_queues Nat Unit Unit c1state (5, ()) ⟨2, [], false⟩
    rfl rfl rfl rfl

/-- C6: the producer loops while the stop flag is false, reading a frame
and putting it into `frameQueue`; it exits when the flag is observed true,
when the source is exhausted, or when `enqueue` returns false, and every
exit path runs `frameQueue.set_finished()` (once — a finished producer
takes no further action); in any run, once the producer is done
`frameQueue.finished` is true, so a consumer `get` on the drained queue
observes "closed" instead of blocking forever. -/
theorem C6_producer_marks_finished :
    (∀ (F D E : Type) (s : PipeState F D E), s.prod = ProdPc.run →
        s.stopFlag = true →
        prodStep s = { s with prod := ProdPc.done,
                              frameQueue := s.frameQueue.set_finished }) ∧
    (∀ (F D E : Type) (s : PipeState F D E), s.prod = ProdPc.run →
        s.stopFlag = false → s.source = [] →
        prodStep s = { s with prod := ProdPc.done,
                              frameQueue := s.frameQueue.set_finished }) ∧
    (∀ (F D E : Type) (s : PipeState F D E) (f : F) (rest : List F),
        s.prod = ProdPc.run → s.stopFlag = false → s.source = f :: rest →
        prodStep s = { s with source := rest, prod := ProdPc.holding f }) ∧
    (∀ (F D E : Type) (s : PipeState F D E) (f : F) (q' : BoundedQueue F),
        s.prod = ProdPc.holding f → s.frameQueue.enqueue f = .accepted q' →
        prodStep s = { s with frameQueue := q',
                              accepted := s.accepted ++ [f],
                              prod := ProdPc.run }) ∧
    (∀ (F D E : Type) (s : PipeState F D E) (f : F),
        s.prod = ProdPc.holding f → s.frameQueue.enqueue f = .rejected →
        prodStep s = { s with prod := ProdPc.done,
                              frameQueue := s.frameQueue.set_finished }) ∧
    (∀ (F D E : Type) (s : PipeState F D E), s.prod = ProdPc.done →
        prodStep s = s) ∧
    (∀ (F D E : Type) (detect : F → Except E D) (source : List F)
        (quits : List Bool) (sched : List Tid),
        ((run detect (initState source quits) sched).prod = ProdPc.done →
          (run detect (initState source quits) sched).frameQueue.finished = true) ∧
        ((run detect (initState source quits) sched).prod = ProdPc.done →
          (run detect (initState source quits) sched).frameQueue.buffer = [] →
          (run detect (initState source quits) sched).frameQueue.get = .closed)) := by
  refine ⟨?_, ?_, ?_, ?_, ?_, ?_, ?_⟩
  · intro F D E s h1 h2
    obtain ⟨stop, qA, qB, src, qs, prodPc, consPc, dispPc,
      acc, con, emi, pre, rdrops, cr⟩ := s
    simp only at h1 h2
    subst h1 h2
    rfl
  · intro F D E s h1 h2 h3
    obtain ⟨stop, qA, qB, src, qs, prodPc, consPc, dispPc,
      acc, con, emi, pre, rdrops, cr⟩ := s
    simp only at h1 h2 h3
    subst h1 h2 h3
    rfl
  · intro F D E s f rest h1 h2 h3
    obtain ⟨stop, qA, qB, src, qs, prodPc, consPc, dispPc,
      acc, con, emi, pre, rdrops, cr⟩ := s
    simp only at h1 h2 h3
    subst h1 h2 h3
    rfl
  · intro F D E s f q' h1 h2
    obtain ⟨stop, qA, qB, src, qs, prodPc, consPc, dispPc,
      acc, con, emi, pre, rdrops, cr⟩ := s
    simp only at h1 h2
    subst h1
    simp [prodStep, h2]
  · intro F D E s f h1 h2
    obtain ⟨stop, qA, qB, src, qs, prodPc, consPc, dispPc,
      acc, con, emi, pre, rdrops, cr⟩ := s
    simp only at h1 h2
    subst h1
    simp [prodStep, h2]
  · intro F D E s h1
    obtain ⟨stop, qA, qB, src, qs, prodPc, consPc, dispPc,
      acc, con, emi, pre, rdrops, cr⟩ := s
    simp only at h1
    subst h1
    rfl
  · intro F D E detect source quits sched
    have hfin : (run detect (initState source quits) sched).prod = ProdPc.done →
        (run detect (initState source quits) sched).frameQueue.finished = true := by
      refine run_preserved detect (fun s t h => prodFin_step detect s t h) sched
        (initState source quits) ?_
      intro h
      simp [initState] at h
    refine ⟨hfin, ?_⟩
    intro hdone hbuf
    rw [get_closed_iff]
    exact ⟨hbuf, hfin hdone⟩

/-- C2 counterexample: in a concrete run where the detector raises on the
single captured frame, the exception escapes the consumer lambda and kills
the whole pipeline (`crashed`); no failure is recorded, the frame is not
skipped-and-continued, and a further scheduled step of any thread does
nothing because the process is dead. -/
theorem C2_detect_error_counterexample :
    c2run.crashed = some () ∧
    c2run.recordedDrops = [] ∧
    c2run.cons = ConsPc.atHead ∧
    c2run.processedQueue.finished = false ∧
    step (fun _ => Except.error ()) c2run Tid.cons = c2run ∧
    step (fun _ => Except.error ()) c2run Tid.prod = c2run ∧
    step (fun _ => Except.error ()) c2run Tid.disp = c2run := by
  refine ⟨rfl, rfl, rfl, rfl, rfl, rfl, rfl⟩

/-- C2 (amended): the consumer lambda contains no handler around
`detector.detect`, so when `detect` raises on a dequeued frame the
exception propagates out of the Inference stage: the whole process
terminates (`crashed`), nothing is recorded, the frame is not emitted, the
loop does not continue, and `processedQueue.set_finished()` on the normal
exit path is never reached; once crashed, no thread takes any further
step. -/
theorem C2_detect_error_uncaught (F D E : Type) (detect : F → Except E D)
    (s : PipeState F D E) (f : F) (qA' : BoundedQueue F) (e : E)
    (hcr : s.crashed = none)
    (hcons : s.cons = ConsPc.atHead) (hstop : s.stopFlag = false)
    (hdeq : s.frameQueue.dequeue = .item f qA') (hdet : detect f = .error e) :
    consStep detect s =
      { s with frameQueue := qA', consumed := s.consumed ++ [f],
               crashed := some e } ∧
    (∀ (t : Tid) (s2 : PipeState F D E), s2.crashed = some e →
        step detect s2 t = s2) := by
  constructor
  · obtain ⟨stop, ⟨cA, bA, fA⟩, ⟨cB, bB, fB⟩, src, qs, prodPc, consPc, dispPc,
      acc, con, emi, pre, rdrops, cr⟩ := s
    simp only at hcr hcons hstop hdeq hdet
    subst hcr hcons hstop
    cases bA with
    | nil =>
      unfold BoundedQueue.dequeue BoundedQueue.get at hdeq
      cases fA <;> simp at hdeq
    | cons hd rest =>
      unfold BoundedQueue.dequeue BoundedQueue.get at hdeq
      simp only [GetResult.item.injEq] at hdeq
      obtain ⟨rfl, rfl⟩ := hdeq
      simp [consStep, BoundedQueue.dequeue, BoundedQueue.get, hdet]
  · intro t s2 h2
    simp [step, h2]

/-- C2 witness: the amended behaviour at `c2state` with an
always-failing detector. -/
theorem C2_detect_error_uncaught_witness :
    consStep (fun _ => Except.error ()) c2state =
      { c2state with frameQueue := ⟨2, [], false⟩,
                     consumed := c2state.consumed ++ [7],
                     crashed := some () } ∧
    (∀ (t : Tid) (s2 : PipeState Nat Unit Unit), s2.crashed = some () →
        step (fun _ => Except.error ()) s2 t = s2) :=
  C2_detect_error_uncaught Nat Unit Unit (fun _ => Except.error ()) c2state
    7 ⟨2, [], false⟩ () rfl rfl rfl rfl rfl

/-- C3 counterexample: in a concrete run the producer accepts frames 10
and 20 into `frameQueue`; the user quits while frame 20 is still buffered;
every thread exits, frame 20 is never delivered to the display, and
nothing records its discard — it is silently lost. -/
theorem C3_silent_loss_counterexample :
    c3run.accepted = [10, 20] ∧
    c3run.presented = [10] ∧
    c3run.recordedDrops = [] ∧
    c3run.prod = ProdPc.done ∧
    c3run.cons = ConsPc.done ∧
    c3run.disp = DispPc.done ∧
    c3run.frameQueue.buffer = [20] ∧
    20 ∈ c3run.accepted ∧ 20 ∉ c3run.presented ∧ 20 ∉ c3run.recordedDrops := by
  refine ⟨rfl, rfl, rfl, rfl, rfl, rfl, rfl, by decide, by decide, by decide⟩

/-- C3 (amended): frames accepted into Queue A can be silently lost when
shutdown is requested while they are still buffered, and nothing in the
program records a discarded frame; only in a run with no quit request and
no detection error that drains both queues to completion is every frame
that entered Queue A delivered to the Render stage. -/
theorem C3_no_silent_loss_without_quit (F D E : Type) (g : F → D)
    (source : List F) (quits : List Bool) (sched : List Tid)
    (fin : PipeState F D E)
    (hfin : fin = run (fun f => Except.ok (g f)) (initState source quits) sched)
    (hq : ∀ b ∈ quits, b = false)
    (hcons : fin.cons = ConsPc.done)
    (hbA : fin.frameQueue.buffer = [])
    (hbB : fin.processedQueue.buffer = []) :
    ∀ f ∈ fin.accepted, f ∈ fin.presented := by
  have hinv : Inv7 fin := by
    rw [hfin]
    refine run_preserved _ (fun s t h => inv7_step g s t h) sched _ ?_
    refine ⟨rfl, hq, by simp [initState], rfl, rfl, rfl, rfl⟩
  obtain ⟨-, -, -, -, h5, h6, -⟩ := hinv
  simp only [hcons, hbA, hbB, consHold, List.append_nil, List.map_nil] at h5 h6
  intro f hf
  rw [← h6] at hf
  rw [h5]
  exact hf

/-- C3 witness: in the complete quiet run over source `[1, 2]`, frame 2
entered Queue A and is delivered. -/
theorem C3_no_silent_loss_without_quit_witness :
    2 ∈ (run (fun f => Except.ok ((fun _ => ()) f))
        (initState [1, 2] [false, false] : PipeState Nat Unit Unit)
        c7sched).presented :=
  C3_no_silent_loss_without_quit Nat Unit Unit (fun _ => ()) [1, 2]
    [false, false] c7sched _ rfl (by decide) rfl rfl rfl 2 (by decide)

/-- C7: in any run with no quit request and no detection error, the
consumer receives from Queue A exactly the frames accepted into it, in
order (those not yet received are still buffered), and the display
receives from Queue B exactly the pairs emitted into it, in order; when
such a run drains to completion, the frames observed by the Render stage
are exactly the frames that left the Capture stage, in the same order,
with no loss and no duplication. -/
theorem C7_fifo_no_loss_no_dup (F D E : Type) (g : F → D)
    (source : List F) (quits : List Bool) (sched : List Tid)
    (fin : PipeState F D E)
    (hfin : fin = run (fun f => Except.ok (g f)) (initState source quits) sched)
    (hq : ∀ b ∈ quits, b = false) :
    fin.consumed ++ fin.frameQueue.buffer = fin.accepted ∧
    fin.presented ++ fin.processedQueue.buffer.map Prod.fst =
      fin.emitted.map Prod.fst ∧
    (fin.cons = ConsPc.done → fin.frameQueue.buffer = [] →
      fin.processedQueue.buffer = [] →
      fin.presented = fin.accepted ∧ fin.consumed = fin.accepted ∧
        fin.presented = fin.emitted.map Prod.fst) := by
  have hinv : Inv7 fin := by
    rw [hfin]
    refine run_preserved _ (fun s t h => inv7_step g s t h) sched _ ?_
    refine ⟨rfl, hq, by simp [initState], rfl, rfl, rfl, rfl⟩
  obtain ⟨-, -, -, h4, h5, h6, -⟩ := hinv
  refine ⟨h4, h5, ?_⟩
  intro hcons hbA hbB
  simp only [hcons, hbA, hbB, consHold, List.append_nil, List.map_nil] at h4 h5 h6
  exact ⟨h5.trans h6, h4, h5⟩

/-- C7 witness: the complete quiet run over source `[1, 2]`. -/
theorem C7_fifo_no_loss_no_dup_witness :
    (run (fun f => Except.ok ((fun _ => ()) f))
        (initState [1, 2] [false, false] : PipeState Nat Unit Unit)
        c7sched).presented =
      (run (fun f => Except.ok ((fun _ => ()) f))
        (initState [1, 2] [false, false] : PipeState Nat Unit Unit)
        c7sched).accepted :=
  ((C7_fifo_no_loss_no_dup Nat Unit Unit (fun _ => ()) [1, 2] [false, false]
      c7sched _ rfl (by decide)).2.2 rfl rfl rfl).1

end YOLOsCPP
